import Mathlib

/-!
Verification of `kfac_jax/_src/utils/accumulators.py`.

The file shallowly embeds the two stateful classes of the source file,
`WeightedMovingAverage` and `MultiChunkAccumulator`, over an exact-arithmetic
model of JAX numeric trees:

* a JAX array is modelled as an `Arr`: a shape (list of dimension sizes)
  together with its flattened data as a list of rationals (exact arithmetic in
  place of floating point; dtype coercions are not modelled);
* a pytree is modelled by its flattened leaf list, `PyTree := List Arr`
  (`jax.tree_util.tree_map` over one or two same-structure trees becomes a map
  or a zip over the leaves);
* Python `None` fields (`_accumulator`, `_weight` after `clear`) are modelled
  with `Option`;
* a Python call that raises is modelled by returning the error kind together
  with the state as it stands at the moment of the raise, since in-place field
  mutations performed before the raise persist on the object.

The helper modules `types` (`tree_is_empty`, `CHEX_SCALAR_TYPES`) and
`parallel` (`jit_sync_and_divide_value`, `pmap_sync_and_divide_value`,
`replicate_all_local_devices`, `jit_zeros_like`, `pmap_zeros_like`) are not
part of the given sources; their definitions below are modelled from the spec,
as marked in their doc comments.  The model is single-replica: the
cross-replica mean of a value present on one replica is the value itself.
-/

namespace KfacAccumulators

/-- A JAX numeric array: its shape and its flattened entries, with exact
rational arithmetic standing in for floating point. -/
structure Arr where
  shape : List Nat
  data : List ℚ
deriving DecidableEq, Repr

/-- A pytree, represented by its flattened list of leaf arrays.  A tree with
zero leaves (the empty list) is the structurally empty tree. -/
abbrev PyTree := List Arr

/-- The value of a scalar-shaped array (shape `[]`, one entry). -/
def Arr.scalarQ (a : Arr) : ℚ := a.data.headD 0

/-- Modelled from the spec: `types.tree_is_empty`, the structural-emptiness
test — true exactly when the tree has zero numeric leaves. -/
def treeIsEmpty (t : PyTree) : Bool := t.isEmpty

/-- Emptiness of the accumulator slot as `value` sees it: Python `None` is a
pytree with zero leaves, so the unstarted sentinel counts as empty. -/
def accIsEmpty : Option PyTree → Bool
  | none => true
  | some t => treeIsEmpty t

/-- The structure of a tree: leaf count with each leaf's shape and length.
Two trees can be combined elementwise exactly when their structures agree. -/
def structOf : PyTree → List (List Nat × Nat)
  | [] => []
  | l :: t => (l.shape, l.data.length) :: structOf t

/-- `jnp.full_like(a, x)`: an array of `a`'s shape with every entry `x`. -/
def fullLike (a : Arr) (x : ℚ) : Arr :=
  ⟨a.shape, a.data.map (fun _ => x)⟩

/-- The `weight` argument of `MultiChunkAccumulator.add` as a Python value:
a plain numeric scalar (`CHEX_SCALAR_TYPES`, i.e. `int`/`float`), a
`jax.Array`, an array-like that is numeric but not a `jax.Array` (e.g. a
`np.ndarray` or a list), or a non-numeric object on which any arithmetic
raises. -/
inductive Weight where
  | scalar (x : ℚ)
  | array (a : Arr)
  | otherNumeric (a : Arr)
  | otherBad
deriving DecidableEq, Repr

/-- The error kinds an operation can signal: the three `ValueError`s raised
explicitly by `MultiChunkAccumulator.add`, plus `external` for an exception
raised inside the numeric library itself (bad operand type, broadcast
failure, `None` where an array is required). -/
inductive Err where
  | invalidWeightType
  | weightShapeMismatch
  | emptyNonemptyMismatch
  | external
deriving DecidableEq, Repr

/-- Map a fallible per-leaf operation over a tree, failing if any leaf fails
(the first failing leaf aborts the Python `tree_map`). -/
def optMap (f : Arr → Option Arr) : PyTree → Option PyTree
  | [] => some []
  | l :: t =>
    match f l, optMap f t with
    | some a, some r => some (a :: r)
    | _, _ => none

/-- One leaf of the scale step `lambda x: x * weight`: multiplication by a
scalar always succeeds; by an array only when the shapes are broadcastable
(modelled for the scalar-shaped and equal-shape cases); by a non-numeric
object never. -/
def scaleLeaf (l : Arr) (w : Weight) : Option Arr :=
  match w with
  | .scalar x => some ⟨l.shape, l.data.map (fun v => v * x)⟩
  | .array a | .otherNumeric a =>
    if a.shape = [] then
      some ⟨l.shape, l.data.map (fun v => v * a.scalarQ)⟩
    else if a.shape = l.shape ∧ a.data.length = l.data.length then
      some ⟨l.shape, l.data.zipWith (fun v u => v * u) a.data⟩
    else none
  | .otherBad => none

/-- The scale step of `add`:
`value_obj = jax.tree_util.tree_map(lambda x: x * weight, value_obj)`. -/
def scaleTree (t : PyTree) (w : Weight) : Option PyTree :=
  optMap (fun l => scaleLeaf l w) t

/-- Elementwise sum of two same-structure trees (the result of
`tree_map(jnp.add, s, t)` when the structures agree). -/
def treeAdd2 (s t : PyTree) : PyTree :=
  List.zipWith
    (fun x y => Arr.mk x.shape (x.data.zipWith (fun a b => a + b) y.data)) s t

/-- `tree_map(jnp.add, s, t)` as executed: raises (returns `none`) unless the
two trees have the same structure. -/
def treeAddChecked (s t : PyTree) : Option PyTree :=
  if structOf s = structOf t then some (treeAdd2 s t) else none

/-- Addition of two weight arrays, `x + y`, with numpy-style broadcasting
modelled for the scalar-shaped and equal-shape cases. -/
def arrAdd (x y : Arr) : Option Arr :=
  if y.shape = [] then some ⟨x.shape, x.data.map (fun v => v + y.scalarQ)⟩
  else if x.shape = [] then some ⟨y.shape, y.data.map (fun v => x.scalarQ + v)⟩
  else if x.shape = y.shape ∧ x.data.length = y.data.length then
    some ⟨x.shape, x.data.zipWith (fun a b => a + b) y.data⟩
  else none

/-- The statement `self._weight + weight`: fails when the stored weight is
`None` (after a `clear`) or when the supplied weight is non-numeric. -/
def weightAdd (w : Option Arr) (wt : Weight) : Option Arr :=
  match w, wt with
  | some x, .scalar c => some ⟨x.shape, x.data.map (fun v => v + c)⟩
  | some x, .array a => arrAdd x a
  | some x, .otherNumeric a => arrAdd x a
  | _, _ => none

/-- Per-leaf division `x / w` by the weight array, modelled for the
scalar-shaped and equal-shape cases of broadcasting. -/
def divLeaf (l : Arr) (w : Arr) : Option Arr :=
  if w.shape = [] then some ⟨l.shape, l.data.map (fun v => v / w.scalarQ)⟩
  else if w.shape = l.shape ∧ w.data.length = l.data.length then
    some ⟨l.shape, l.data.zipWith (fun a b => a / b) w.data⟩
  else none

/-- Modelled from the spec: `parallel.jit_sync_and_divide_value` — in
single-stream mode the synchronization is a no-op and the quotient
`tree / weight` is computed directly, elementwise per leaf. -/
def jitSyncAndDivide (t : PyTree) (w : Arr) : Option PyTree :=
  optMap (fun l => divLeaf l w) t

/-- Modelled from the spec: `parallel.pmap_sync_and_divide_value` — computes
the cross-replica mean of the accumulator and weight and divides; with a
single replica the mean is the identity, so it coincides with the
single-stream quotient. -/
def pmapSyncAndDivide (t : PyTree) (w : Arr) : Option PyTree :=
  jitSyncAndDivide t w

/-- Modelled from the spec: `parallel.jit_zeros_like` — a zero tree matching
the reference tree's structure. -/
def jitZerosLike (t : PyTree) : PyTree :=
  t.map (fun l => ⟨l.shape, l.data.map (fun _ => 0)⟩)

/-- Modelled from the spec: `parallel.pmap_zeros_like` — the multi-device
zero initializer; per replica it builds the same zero tree. -/
def pmapZerosLike (t : PyTree) : PyTree := jitZerosLike t

/-- Modelled from the spec: `parallel.replicate_all_local_devices` — places a
copy of the array on every replica; with a single replica it is the
identity. -/
def replicateAllLocalDevices (a : Arr) : Arr := a

/-- `jnp.zeros([], dtype=jnp.int32)`: the scalar-shaped zero array used to
seed accumulator weights. -/
def intZeroScalar : Arr := ⟨[], [0]⟩

/-- The state of a `MultiChunkAccumulator`: the `_accumulator` slot (a pytree
or the Python-`None` unstarted sentinel), the `_weight` slot (an array, or
`None` after `clear`), and the `_multi_device` flag. -/
structure MCA where
  accumulator : Option PyTree
  weight : Option Arr
  multiDevice : Bool
deriving DecidableEq, Repr

/-- `MultiChunkAccumulator.empty(multi_device)`: unstarted sentinel with an
integer-typed scalar zero weight, replicated when multi-device. -/
def emptyAcc (md : Bool) : MCA :=
  ⟨none,
   some (if md then replicateAllLocalDevices intZeroScalar else intZeroScalar),
   md⟩

/-- `MultiChunkAccumulator.zeros_like(obj, multi_device)`: a zero tree of
`obj`'s structure (or `obj` itself when structurally empty) with a scalar
zero weight. -/
def zerosLikeAcc (obj : PyTree) (md : Bool) : MCA :=
  if md then
    ⟨some (if ¬ treeIsEmpty obj then pmapZerosLike obj else obj),
     some (replicateAllLocalDevices intZeroScalar), md⟩
  else
    ⟨some (if ¬ treeIsEmpty obj then jitZerosLike obj else obj),
     some intZeroScalar, md⟩

/-- `MultiChunkAccumulator.clear`: sets both `_accumulator` and `_weight` to
`None`. -/
def clearRun (s : MCA) : MCA :=
  { s with accumulator := none, weight := none }

/-- The outcome of a `value` read: the returned tree-or-sentinel, or an
exception. -/
inductive VRes where
  | ok (v : Option PyTree)
  | error (e : Err)
deriving DecidableEq, Repr

/-- `MultiChunkAccumulator.value`: returns the accumulator unchanged when it
is structurally empty (including the unstarted sentinel); otherwise divides
it by the weight through the mode-selected synchronize-and-divide helper. -/
def valueRun (s : MCA) : VRes :=
  if accIsEmpty s.accumulator then .ok s.accumulator
  else
    match s.accumulator, s.weight with
    | some t, some w =>
      match (if s.multiDevice then pmapSyncAndDivide t w
             else jitSyncAndDivide t w) with
      | some r => .ok (some r)
      | none => .error .external
    | _, _ => .error .external

/-- `MultiChunkAccumulator.value_and_clear`: reads `value`, then clears; when
the read raises, the clear is never reached and the state is untouched. -/
def valueAndClearRun (s : MCA) : VRes × MCA :=
  match valueRun s with
  | .ok v => (.ok v, clearRun s)
  | .error e => (.error e, s)

/-- The unstarted branch of `add` (`self._accumulator is None`): the scaled
`value_obj` is adopted as the accumulator first, and only then is the weight
argument validated — a scalar is broadcast with `jnp.full_like`, a matching
array is adopted, and the two `ValueError`s are raised after the accumulator
assignment.  `full_like` and `.shape` raise when the stored weight is
Python `None`. -/
def addUnstarted (s : MCA) (v : PyTree) (w : Weight) : Option Err × MCA :=
  match w with
  | .scalar x =>
    match s.weight with
    | some warr =>
      (none, { s with accumulator := some v, weight := some (fullLike warr x) })
    | none => (some .external, { s with accumulator := some v })
  | .array a =>
    match s.weight with
    | some warr =>
      if warr.shape = a.shape then
        (none, { s with accumulator := some v, weight := some a })
      else (some .weightShapeMismatch, { s with accumulator := some v })
    | none => (some .external, { s with accumulator := some v })
  | .otherNumeric _ => (some .invalidWeightType, { s with accumulator := some v })
  | .otherBad => (some .invalidWeightType, { s with accumulator := some v })

/-- The started branch of `add`: emptiness of the scaled `value_obj` must
match that of the accumulator; a non-empty pair is summed elementwise (the
accumulator field is reassigned before the weight update), and the weight is
incremented last in every non-raising path. -/
def addStarted (s : MCA) (acc : PyTree) (v : PyTree) (w : Weight) :
    Option Err × MCA :=
  if ¬ treeIsEmpty acc then
    if treeIsEmpty v then (some .emptyNonemptyMismatch, s)
    else
      match treeAddChecked acc v with
      | none => (some .external, s)
      | some acc2 =>
        match weightAdd s.weight w with
        | some w2 => (none, { s with accumulator := some acc2, weight := some w2 })
        | none => (some .external, { s with accumulator := some acc2 })
  else
    if ¬ treeIsEmpty v then (some .emptyNonemptyMismatch, s)
    else
      match weightAdd s.weight w with
      | some w2 => (none, { s with weight := some w2 })
      | none => (some .external, s)

/-- `MultiChunkAccumulator.add(value_obj, weight)`: first scales `value_obj`
elementwise by `weight` (this is where a non-numeric or non-broadcastable
weight already raises), then dispatches on whether the accumulator is the
unstarted sentinel. -/
def addRun (s : MCA) (valueObj : PyTree) (w : Weight) : Option Err × MCA :=
  match scaleTree valueObj w with
  | none => (some .external, s)
  | some v =>
    match s.accumulator with
    | none => addUnstarted s v w
    | some acc => addStarted s acc v w

/-- A sequence of `add` calls with scalar weights; a raise aborts the
sequence (the caller's exception propagates). -/
def addList (s : MCA) : List (PyTree × ℚ) → Option Err × MCA
  | [] => (none, s)
  | p :: rest =>
    match addRun s p.1 (.scalar p.2) with
    | (none, s2) => addList s2 rest
    | (some e, s2) => (some e, s2)

/-- Scaling a tree by a plain rational (the successful scalar-weight case of
the scale step). -/
def scaleQ (c : ℚ) (t : PyTree) : PyTree :=
  t.map (fun l => ⟨l.shape, l.data.map (fun v => v * c)⟩)

/-- Elementwise division of a tree by a plain rational. -/
def divQ (c : ℚ) (t : PyTree) : PyTree :=
  t.map (fun l => ⟨l.shape, l.data.map (fun v => v / c)⟩)

/-- The elementwise weighted sum `Σ v_i * w_i` over a non-empty call
sequence, the reference value for the accumulator's net effect. -/
def weightedSum (first : PyTree × ℚ) (rest : List (PyTree × ℚ)) : PyTree :=
  rest.foldl (fun a p => treeAdd2 a (scaleQ p.2 p.1)) (scaleQ first.2 first.1)

/-- The state of a `WeightedMovingAverage`: the scalar weight and the raw
(unnormalized) value tree. -/
structure WMA where
  weight : ℚ
  raw_value : PyTree
deriving DecidableEq, Repr

/-- `WeightedMovingAverage.value`: `raw_value / weight` elementwise. -/
def WMA.value (st : WMA) : PyTree :=
  st.raw_value.map (fun l => ⟨l.shape, l.data.map (fun x => x / st.weight)⟩)

/-- `WeightedMovingAverage.update(value, old_weight_multiplier, new_weight)`:
`weight ← weight * old + new` and, per leaf,
`raw_value ← raw_value * old + value * new`; the two-tree `tree_map` raises
(returns `none`) when the structures disagree. -/
def WMA.update (st : WMA) (v : PyTree) (oldMult newW : ℚ) : Option WMA :=
  if structOf st.raw_value = structOf v then
    some ⟨st.weight * oldMult + newW,
      List.zipWith
        (fun x y =>
          Arr.mk x.shape
            (x.data.zipWith (fun a b => a * oldMult + b * newW) y.data))
        st.raw_value v⟩
  else none

/-- `WeightedMovingAverage.zeros_like(value)`: zero weight and a zero tree of
the reference structure. -/
def WMA.zerosLike (v : PyTree) : WMA :=
  ⟨0, jitZerosLike v⟩

/-! ### Basic structural lemmas -/

lemma treeIsEmpty_true_iff (t : PyTree) : treeIsEmpty t = true ↔ t = [] := by
  cases t <;> simp [treeIsEmpty]

lemma treeIsEmpty_false_iff (t : PyTree) : treeIsEmpty t = false ↔ t ≠ [] := by
  cases t <;> simp [treeIsEmpty]

lemma structOf_eq_nil_iff (t : PyTree) : structOf t = [] ↔ t = [] := by
  cases t <;> simp [structOf]

lemma structOf_map_preserve (f : Arr → Arr)
    (hs : ∀ a, (f a).shape = a.shape)
    (hl : ∀ a, ((f a).data).length = a.data.length) :
    ∀ t : PyTree, structOf (t.map f) = structOf t := by
  intro t
  induction t with
  | nil => rfl
  | cons l t ih => simp [structOf, hs, hl, ih]

lemma structOf_scaleQ (c : ℚ) (t : PyTree) : structOf (scaleQ c t) = structOf t := by
  apply structOf_map_preserve <;> intro a <;> simp

lemma structOf_jitZerosLike (t : PyTree) : structOf (jitZerosLike t) = structOf t := by
  apply structOf_map_preserve <;> intro a <;> simp

lemma structOf_treeAdd2 :
    ∀ s t : PyTree, structOf s = structOf t → structOf (treeAdd2 s t) = structOf s := by
  intro s
  induction s with
  | nil => intro t h; simp [treeAdd2, structOf]
  | cons x s ih =>
    intro t h
    cases t with
    | nil => simp [structOf] at h
    | cons y t =>
      simp only [structOf, List.cons.injEq, Prod.mk.injEq] at h
      obtain ⟨⟨hsh, hlen⟩, htail⟩ := h
      have hmin : min x.data.length y.data.length = x.data.length := by
        rw [hlen, Nat.min_self]
      simp only [treeAdd2, List.zipWith, structOf, List.length_zipWith, hmin,
        List.cons.injEq, Prod.mk.injEq, true_and]
      exact ih t htail

lemma scaleTree_scalar (c : ℚ) :
    ∀ t : PyTree, scaleTree t (Weight.scalar c) = some (scaleQ c t) := by
  intro t
  induction t with
  | nil => rfl
  | cons l t ih =>
    simp only [scaleTree, optMap, scaleLeaf] at ih ⊢
    rw [ih]
    rfl

lemma treeIsEmpty_scaleQ (c : ℚ) (t : PyTree) :
    treeIsEmpty (scaleQ c t) = treeIsEmpty t := by
  cases t <;> rfl

lemma zipWith_add_zero_left :
    ∀ l1 l2 : List ℚ, l1.length = l2.length →
      List.zipWith (fun a b => a + b) (l1.map fun _ => (0 : ℚ)) l2 = l2
  | [], [], _ => rfl
  | [], _ :: _, h => by simp at h
  | _ :: _, [], h => by simp at h
  | a :: l1, b :: l2, h => by
    simp only [List.map, List.zipWith, zero_add]
    rw [zipWith_add_zero_left l1 l2 (by simpa using h)]

lemma treeAdd2_jitZerosLike :
    ∀ r x : PyTree, structOf r = structOf x → treeAdd2 (jitZerosLike r) x = x := by
  intro r
  induction r with
  | nil =>
    intro x h
    have hx : x = [] := (structOf_eq_nil_iff x).mp h.symm
    rw [hx]
    rfl
  | cons a r ih =>
    intro x h
    cases x with
    | nil => simp [structOf] at h
    | cons b x =>
      simp only [structOf, List.cons.injEq, Prod.mk.injEq] at h
      obtain ⟨⟨hsh, hlen⟩, htail⟩ := h
      simp only [jitZerosLike, List.map, treeAdd2, List.zipWith]
      rw [zipWith_add_zero_left a.data b.data hlen]
      have hb : Arr.mk a.shape b.data = b := by rw [hsh]
      rw [hb]
      simp only [List.cons.injEq, true_and]
      have := ih x htail
      simpa [jitZerosLike, treeAdd2] using this

lemma jitSyncAndDivide_scalarW (W : ℚ) :
    ∀ t : PyTree, jitSyncAndDivide t ⟨[], [W]⟩ = some (divQ W t) := by
  intro t
  induction t with
  | nil => rfl
  | cons l t ih =>
    simp only [jitSyncAndDivide, optMap, divLeaf] at ih ⊢
    rw [ih]
    simp [Arr.scalarQ, divQ]

/-! ### Claim C10: `value` on an unstarted accumulator -/

/-- Claim C10 (confirmed): reading `value` on an unstarted accumulator (the
`_accumulator` slot is the `None` sentinel) does not raise and performs no
arithmetic: since the sentinel is structurally empty, `value` returns the
sentinel itself unchanged. -/
theorem claim_C10_value_unstarted (s : MCA) (h : s.accumulator = none) :
    valueRun s = .ok s.accumulator ∧ valueRun s = .ok none := by
  constructor <;> simp [valueRun, h, accIsEmpty]

theorem claim_C10_witness :
    valueRun (emptyAcc false) = .ok (emptyAcc false).accumulator ∧
    valueRun (emptyAcc false) = .ok none :=
  claim_C10_value_unstarted (emptyAcc false) rfl

/-! ### Claim C5: empty `value_obj` against a non-empty started accumulator -/

/-- Claim C5 (confirmed): on a started accumulator holding a non-empty tree,
`add` with a structurally empty `value_obj` raises the
empty-nonempty-mismatch error, and the failed call leaves both the
accumulator and the weight (indeed the whole state) exactly as they were. -/
theorem claim_C5_empty_mismatch_no_mutation
    (s : MCA) (acc : PyTree) (v : PyTree) (w : Weight)
    (hacc : s.accumulator = some acc)
    (hne : treeIsEmpty acc = false)
    (hv : treeIsEmpty v = true) :
    addRun s v w = (some Err.emptyNonemptyMismatch, s) := by
  rw [treeIsEmpty_true_iff] at hv
  subst hv
  rw [treeIsEmpty_false_iff] at hne
  obtain ⟨x, rest, rfl⟩ : ∃ x rest, acc = x :: rest := by
    cases acc with
    | nil => exact absurd rfl hne
    | cons x rest => exact ⟨x, rest, rfl⟩
  obtain ⟨oa, ow, md⟩ := s
  have ha : oa = some (x :: rest) := hacc
  subst ha
  rfl

theorem claim_C5_witness :
    addRun ⟨some [Arr.mk [1] [2]], some ⟨[], [1]⟩, false⟩ [] (Weight.scalar 3)
      = (some Err.emptyNonemptyMismatch,
         ⟨some [Arr.mk [1] [2]], some ⟨[], [1]⟩, false⟩) :=
  claim_C5_empty_mismatch_no_mutation
    ⟨some [Arr.mk [1] [2]], some ⟨[], [1]⟩, false⟩
    [Arr.mk [1] [2]] [] (Weight.scalar 3) rfl rfl rfl

/-! ### Claims C4 and C8: `WeightedMovingAverage.update` -/

lemma getD_zipWith_lin (a b : ℚ) :
    ∀ l1 l2 : List ℚ, l1.length = l2.length → ∀ j : ℕ,
      (List.zipWith (fun p q => p * a + q * b) l1 l2).getD j 0
        = l1.getD j 0 * a + l2.getD j 0 * b
  | [], [], _, _ => by simp
  | [], _ :: _, h, _ => by simp at h
  | _ :: _, [], h, _ => by simp at h
  | p :: l1, q :: l2, _, 0 => by simp
  | p :: l1, q :: l2, h, j + 1 => by
    simp only [List.zipWith, List.getD_cons_succ]
    exact getD_zipWith_lin a b l1 l2 (by simpa using h) j

lemma getD_update_leafwise (a b : ℚ) :
    ∀ t1 t2 : PyTree, structOf t1 = structOf t2 → ∀ i j : ℕ,
      ((List.zipWith
          (fun x y =>
            Arr.mk x.shape (x.data.zipWith (fun p q => p * a + q * b) y.data))
          t1 t2).getD i ⟨[], []⟩).data.getD j 0
        = ((t1.getD i ⟨[], []⟩).data.getD j 0) * a
          + ((t2.getD i ⟨[], []⟩).data.getD j 0) * b
  | [], [], _, i, j => by simp
  | [], _ :: _, h, _, _ => by simp [structOf] at h
  | _ :: _, [], h, _, _ => by simp [structOf] at h
  | x :: t1, y :: t2, h, 0, j => by
    simp only [structOf, List.cons.injEq, Prod.mk.injEq] at h
    simp only [List.zipWith, List.getD_cons_zero]
    exact getD_zipWith_lin a b x.data y.data h.1.2 j
  | x :: t1, y :: t2, h, i + 1, j => by
    simp only [structOf, List.cons.injEq, Prod.mk.injEq] at h
    simp only [List.zipWith, List.getD_cons_succ]
    exact getD_update_leafwise a b t1 t2 h.2 i j

/-- Claim C4 (confirmed): a successful
`update(value, old_weight_multiplier, new_weight)` sets the weight to
`weight * old_weight_multiplier + new_weight` and, elementwise, each entry of
`raw_value` to the old entry times the multiplier plus the corresponding
entry of `value` times the new weight (out-of-range positions read as the
zero default on both sides). -/
theorem claim_C4_update_equations
    (st : WMA) (v : PyTree) (a b : ℚ) (st2 : WMA)
    (h : st.update v a b = some st2) :
    st2.weight = st.weight * a + b ∧
    ∀ i j : ℕ,
      (st2.raw_value.getD i ⟨[], []⟩).data.getD j 0
        = ((st.raw_value.getD i ⟨[], []⟩).data.getD j 0) * a
          + ((v.getD i ⟨[], []⟩).data.getD j 0) * b := by
  rw [WMA.update] at h
  split at h
  case isTrue hstruct =>
    obtain rfl := Option.some.inj h
    exact ⟨rfl, getD_update_leafwise a b st.raw_value v hstruct⟩
  case isFalse => exact Option.noConfusion h

theorem claim_C4_witness :
    ((⟨7, [Arr.mk [1] [21]]⟩ : WMA).weight
        = (⟨2, [Arr.mk [1] [3]]⟩ : WMA).weight * 2 + 3) ∧
    ∀ i j : ℕ,
      ((⟨7, [Arr.mk [1] [21]]⟩ : WMA).raw_value.getD i ⟨[], []⟩).data.getD j 0
        = (((⟨2, [Arr.mk [1] [3]]⟩ : WMA).raw_value.getD i ⟨[], []⟩).data.getD j 0) * 2
          + (([Arr.mk [1] [5]].getD i ⟨[], []⟩).data.getD j 0) * 3 :=
  claim_C4_update_equations ⟨2, [Arr.mk [1] [3]]⟩ [Arr.mk [1] [5]] 2 3
    ⟨7, [Arr.mk [1] [21]]⟩ (by norm_num [WMA.update, structOf])

lemma zipWith_discard_history (w : ℚ) (hw : w ≠ 0) :
    ∀ l1 l2 : List ℚ, l1.length = l2.length →
      (List.zipWith (fun p q => p * 0 + q * w) l1 l2).map (fun x => x / w) = l2
  | [], [], _ => rfl
  | [], _ :: _, h => by simp at h
  | _ :: _, [], h => by simp at h
  | a :: l1, b :: l2, h => by
    simp only [List.zipWith, List.map]
    rw [zipWith_discard_history w hw l1 l2 (by simpa using h)]
    congr 1
    rw [mul_zero, zero_add]
    exact mul_div_cancel_right₀ b hw

lemma value_update_discard (w : ℚ) (hw : w ≠ 0) :
    ∀ t1 t2 : PyTree, structOf t1 = structOf t2 →
      (List.zipWith
          (fun x y =>
            Arr.mk x.shape (x.data.zipWith (fun p q => p * 0 + q * w) y.data))
          t1 t2).map
        (fun l => Arr.mk l.shape (l.data.map (fun x => x / w))) = t2 := by
  intro t1
  induction t1 with
  | nil =>
    intro t2 h
    have h2 : t2 = [] := (structOf_eq_nil_iff t2).mp h.symm
    rw [h2]
    rfl
  | cons x t1 ih =>
    intro t2 h
    cases t2 with
    | nil => simp [structOf] at h
    | cons y t2 =>
      simp only [structOf, List.cons.injEq, Prod.mk.injEq] at h
      obtain ⟨⟨hsh, hlen⟩, htail⟩ := h
      simp only [List.zipWith, List.map, List.cons.injEq]
      constructor
      · rw [zipWith_discard_history w hw x.data y.data hlen, hsh]
      · exact ih t2 htail

/-- Claim C8 (confirmed): after the single call `update(v, 0, w)` with a
nonzero new weight `w`, the derived `value` equals `v` exactly, elementwise,
whatever the prior weight and raw value were (exact rational arithmetic). -/
theorem claim_C8_update_zero_discards
    (st : WMA) (v : PyTree) (w : ℚ) (st2 : WMA)
    (hw : w ≠ 0) (h : st.update v 0 w = some st2) :
    st2.value = v := by
  rw [WMA.update] at h
  split at h
  case isTrue hstruct =>
    obtain rfl := Option.some.inj h
    show (List.zipWith
        (fun x y =>
          Arr.mk x.shape (x.data.zipWith (fun p q => p * 0 + q * w) y.data))
        st.raw_value v).map
      (fun l => Arr.mk l.shape (l.data.map (fun x => x / (st.weight * 0 + w)))) = v
    have hd : (fun (l : Arr) => Arr.mk l.shape
          (l.data.map (fun x => x / (st.weight * 0 + w))))
        = fun (l : Arr) => Arr.mk l.shape (l.data.map (fun x => x / w)) := by
      funext l
      rw [mul_zero, zero_add]
    rw [hd]
    exact value_update_discard w hw st.raw_value v hstruct
  case isFalse => exact Option.noConfusion h

theorem claim_C8_witness :
    (⟨2, [Arr.mk [] [8]]⟩ : WMA).value = [Arr.mk [] [4]] :=
  claim_C8_update_zero_discards ⟨5, [Arr.mk [] [7]]⟩ [Arr.mk [] [4]] 2
    ⟨2, [Arr.mk [] [8]]⟩ (by norm_num) (by norm_num [WMA.update, structOf])

/-! ### Claim C7: definedness of the weight field -/

lemma addRun_weight_some_or_same (s : MCA) (v : PyTree) (w : Weight) :
    (addRun s v w).2.weight = s.weight ∨ ∃ x, (addRun s v w).2.weight = some x := by
  unfold addRun addUnstarted addStarted
  repeat' split
  all_goals simp_all

/-- Claim C7 counterexample: `clear` on a freshly constructed accumulator
leaves a reachable state whose weight field is Python `None`, not a defined
numeric value — the claim fails on the sequence `empty(False)` then
`clear()`. -/
theorem claim_C7_counterexample : (clearRun (emptyAcc false)).weight = none := rfl

/-- Claim C7 (amended): the weight field is a defined numeric value after
construction and is kept defined by every `add` call (faulting or not); but
`clear` — and therefore `value_and_clear` — sets the weight field to `None`,
where it is no longer a defined numeric value. -/
theorem claim_C7_amended :
    (∀ md, (emptyAcc md).weight.isSome = true) ∧
    (∀ t md, (zerosLikeAcc t md).weight.isSome = true) ∧
    (∀ (s : MCA) (v : PyTree) (w : Weight),
        s.weight.isSome = true → ((addRun s v w).2.weight).isSome = true) ∧
    (∀ s : MCA, (clearRun s).weight = none) := by
  refine ⟨?_, ?_, ?_, ?_⟩
  · intro md; cases md <;> rfl
  · intro t md; cases md <;> rfl
  · intro s v w hw
    rcases addRun_weight_some_or_same s v w with h | ⟨x, h⟩
    · rw [h]; exact hw
    · rw [h]; rfl
  · intro s; rfl

theorem claim_C7_witness :
    ((addRun (emptyAcc false) [] Weight.otherBad).2.weight).isSome = true :=
  claim_C7_amended.2.2.1 (emptyAcc false) [] Weight.otherBad rfl

/-! ### Claim C1: what a faulting `add` mutates -/

/-- Claim C1 counterexample: on `empty(False)`, a first `add` whose weight is
an array of mismatched shape raises the weight-shape-mismatch error, yet
afterwards the accumulator field is no longer the pre-call sentinel: the
assignment `self._accumulator = value_obj` precedes the weight validation. -/
theorem claim_C1_counterexample :
    (addRun (emptyAcc false) [Arr.mk [2] [1, 2]]
        (Weight.array ⟨[2], [5, 5]⟩)).1 = some Err.weightShapeMismatch ∧
    (addRun (emptyAcc false) [Arr.mk [2] [1, 2]]
        (Weight.array ⟨[2], [5, 5]⟩)).2.accumulator
      ≠ (emptyAcc false).accumulator := by
  constructor
  · norm_num [addRun, scaleTree, optMap, scaleLeaf, Arr.scalarQ, addUnstarted,
      emptyAcc, intZeroScalar, fullLike, replicateAllLocalDevices]
  · intro hc
    norm_num [addRun, scaleTree, optMap, scaleLeaf, Arr.scalarQ, addUnstarted,
      emptyAcc, intZeroScalar, fullLike, replicateAllLocalDevices] at hc
    exact Option.noConfusion hc

/-- Claim C1 (amended): a faulting `add` never mutates the weight field, and
a faulting call that signals the empty-nonempty-mismatch error leaves the
whole state unchanged; but the invalid-weight-type and weight-shape-mismatch
errors are raised on the first `add` only after the accumulator has been set
to the scaled `value_obj`, so for those two errors the accumulator field is
mutated from the sentinel to the scaled value. -/
theorem claim_C1_amended (s : MCA) (v : PyTree) (w : Weight) (e : Err) (s2 : MCA)
    (h : addRun s v w = (some e, s2)) :
    s2.weight = s.weight ∧
    (e = Err.emptyNonemptyMismatch → s2 = s) ∧
    ((e = Err.invalidWeightType ∨ e = Err.weightShapeMismatch) →
      s.accumulator = none ∧
      ∃ sv, scaleTree v w = some sv ∧ s2.accumulator = some sv) := by
  unfold addRun addUnstarted addStarted at h
  repeat' split at h
  all_goals rw [Prod.mk.injEq] at h
  all_goals obtain ⟨he, hs⟩ := h
  all_goals
    first
    | exact Option.noConfusion he
    | (obtain rfl := Option.some.inj he
       subst hs
       refine ⟨rfl, ?_, ?_⟩ <;> intro hc <;>
         first
         | exact Err.noConfusion hc
         | rfl
         | exact ⟨by assumption, _, by assumption, rfl⟩
         | (rcases hc with hc | hc <;> exact Err.noConfusion hc))

theorem claim_C1_witness :
    ((⟨some [Arr.mk [2] [5, 10]], some ⟨[], [0]⟩, false⟩ : MCA).weight
        = (emptyAcc false).weight) ∧
    (Err.weightShapeMismatch = Err.emptyNonemptyMismatch →
      (⟨some [Arr.mk [2] [5, 10]], some ⟨[], [0]⟩, false⟩ : MCA) = emptyAcc false) ∧
    ((Err.weightShapeMismatch = Err.invalidWeightType ∨
        Err.weightShapeMismatch = Err.weightShapeMismatch) →
      (emptyAcc false).accumulator = none ∧
      ∃ sv, scaleTree [Arr.mk [2] [1, 2]] (Weight.array ⟨[2], [5, 5]⟩) = some sv ∧
        (⟨some [Arr.mk [2] [5, 10]], some ⟨[], [0]⟩, false⟩ : MCA).accumulator
          = some sv) :=
  claim_C1_amended (emptyAcc false) [Arr.mk [2] [1, 2]]
    (Weight.array ⟨[2], [5, 5]⟩) Err.weightShapeMismatch
    ⟨some [Arr.mk [2] [5, 10]], some ⟨[], [0]⟩, false⟩
    (by norm_num [addRun, scaleTree, optMap, scaleLeaf, Arr.scalarQ,
      addUnstarted, emptyAcc, intZeroScalar, fullLike,
      replicateAllLocalDevices])

/-! ### Key evaluation lemmas for `add` and `value` -/

lemma nonempty_of_structOf {t u : PyTree} (h : structOf t = structOf u)
    (hu : treeIsEmpty u = false) : treeIsEmpty t = false := by
  rw [treeIsEmpty_false_iff] at hu ⊢
  intro hnil
  apply hu
  apply (structOf_eq_nil_iff u).mp
  rw [← h, hnil]
  rfl

lemma addRun_started_scalar (s : MCA) (acc : PyTree) (warr : Arr) (v : PyTree)
    (c : ℚ) (hacc : s.accumulator = some acc) (hw : s.weight = some warr)
    (hne : treeIsEmpty acc = false) (hstr : structOf acc = structOf v) :
    addRun s v (Weight.scalar c)
      = (none, ⟨some (treeAdd2 acc (scaleQ c v)),
                some ⟨warr.shape, warr.data.map (fun x => x + c)⟩,
                s.multiDevice⟩) := by
  have hsv := scaleTree_scalar c v
  have hstr2 : structOf acc = structOf (scaleQ c v) := by
    rw [structOf_scaleQ]; exact hstr
  have hvne : treeIsEmpty (scaleQ c v) = false := by
    rw [treeIsEmpty_scaleQ]
    exact nonempty_of_structOf hstr.symm hne
  simp [addRun, hsv, hacc, addStarted, hne, hvne, treeAddChecked, hstr2,
    weightAdd, hw]

lemma addRun_empty_scalar (v : PyTree) (c : ℚ) :
    addRun (emptyAcc false) v (Weight.scalar c)
      = (none, ⟨some (scaleQ c v), some ⟨[], [c]⟩, false⟩) := by
  simp [addRun, scaleTree_scalar, emptyAcc, addUnstarted, intZeroScalar,
    replicateAllLocalDevices, fullLike]

lemma valueRun_single (t : PyTree) (W : ℚ) :
    valueRun ⟨some t, some ⟨[], [W]⟩, false⟩
      = .ok (some (if treeIsEmpty t then t else divQ W t)) := by
  cases t with
  | nil => simp [valueRun, accIsEmpty, treeIsEmpty]
  | cons l t =>
    have hdiv := jitSyncAndDivide_scalarW W (l :: t)
    simp [valueRun, accIsEmpty, treeIsEmpty, hdiv]

lemma valueAndClearRun_single (t : PyTree) (W : ℚ) :
    (valueAndClearRun ⟨some t, some ⟨[], [W]⟩, false⟩).2
      = ⟨none, none, false⟩ := by
  simp [valueAndClearRun, valueRun_single, clearRun]

/-! ### Claim C6: weight validation on the first `add` -/

/-- Claim C6 counterexample: on the first `add`, a weight array whose shape
is incompatible with a leaf of `value_obj` makes the scale step
`tree_map(lambda x: x * weight, value_obj)` raise a broadcasting error before
the weight validation is reached, so the call signals an external error, not
the documented weight-shape-mismatch error. -/
theorem claim_C6_counterexample :
    (addRun (emptyAcc false) [Arr.mk [3] [1, 2, 3]]
        (Weight.array ⟨[2], [5, 5]⟩)).1 = some Err.external ∧
    some Err.external ≠ some Err.weightShapeMismatch := by
  constructor
  · norm_num [addRun, scaleTree, optMap, scaleLeaf, Arr.scalarQ, emptyAcc,
      intZeroScalar, replicateAllLocalDevices]
  · simp

/-- Claim C6 (amended): on the first `add`, provided the elementwise scaling
of `value_obj` by the weight succeeds, the weight argument is validated as
claimed: a plain numeric scalar is accepted and broadcast to the shape of the
existing weight container, an array of matching shape is adopted, an array of
mismatched shape raises weight-shape-mismatch, and a non-scalar non-array
weight raises invalid-weight-type (when the scaling itself fails — a
non-numeric weight against a non-empty tree, or a non-broadcastable array —
the call instead fails with the scale step's own external error). -/
theorem claim_C6_amended (s : MCA) (warr : Arr) (v sv : PyTree) (w : Weight)
    (hacc : s.accumulator = none) (hw : s.weight = some warr)
    (hscale : scaleTree v w = some sv) :
    (∀ x : ℚ, w = Weight.scalar x →
        addRun s v w = (none, { s with accumulator := some sv,
                                       weight := some (fullLike warr x) })) ∧
    (∀ a : Arr, w = Weight.array a → a.shape = warr.shape →
        addRun s v w = (none, { s with accumulator := some sv,
                                       weight := some a })) ∧
    (∀ a : Arr, w = Weight.array a → a.shape ≠ warr.shape →
        addRun s v w = (some Err.weightShapeMismatch,
                        { s with accumulator := some sv })) ∧
    ((w = Weight.otherBad ∨ ∃ a, w = Weight.otherNumeric a) →
        addRun s v w = (some Err.invalidWeightType,
                        { s with accumulator := some sv })) := by
  refine ⟨?_, ?_, ?_, ?_⟩
  · rintro x rfl
    simp [addRun, hscale, hacc, addUnstarted, hw]
  · rintro a rfl hsh
    simp [addRun, hscale, hacc, addUnstarted, hw, hsh.symm]
  · rintro a rfl hsh
    have hne : ¬ (warr.shape = a.shape) := fun hh => hsh hh.symm
    simp [addRun, hscale, hacc, addUnstarted, hw, hne]
  · rintro (rfl | ⟨a, rfl⟩) <;> simp [addRun, hscale, hacc, addUnstarted, hw]

theorem claim_C6_witness :
    addRun (emptyAcc false) [Arr.mk [] [2]] (Weight.scalar 3)
      = (none, { (emptyAcc false) with accumulator := some [Arr.mk [] [6]],
                                       weight := some (fullLike ⟨[], [0]⟩ 3) }) :=
  (claim_C6_amended (emptyAcc false) ⟨[], [0]⟩ [Arr.mk [] [2]] [Arr.mk [] [6]]
      (Weight.scalar 3) rfl rfl
      (by norm_num [scaleTree, optMap, scaleLeaf])).1 3 rfl

/-! ### Claim C9: no weight validation once started -/

/-- Claim C9 counterexample: a started accumulator does not accept an
arbitrary weight — a non-numeric weight still makes the started `add` raise
(inside the arithmetic `self._weight + weight`), so the call signals an
external error rather than accepting the weight. -/
theorem claim_C9_counterexample :
    (addRun (zerosLikeAcc [] false) [] Weight.otherBad).1
      = some Err.external := rfl

/-- Claim C9 (amended): once the accumulator is started, `add` performs none
of the documented weight validations — it can never signal invalid-weight-type
or weight-shape-mismatch — and any numeric scalar weight on a
structure-matching non-empty `add` is accepted and added into the running
weight; a non-numeric weight still fails, but with the arithmetic's own
external error rather than a validation error. -/
theorem claim_C9_amended (s : MCA) (acc : PyTree)
    (hacc : s.accumulator = some acc) :
    (∀ (v : PyTree) (w : Weight),
        (addRun s v w).1 ≠ some Err.invalidWeightType ∧
        (addRun s v w).1 ≠ some Err.weightShapeMismatch) ∧
    (∀ (v : PyTree) (warr : Arr) (c : ℚ), s.weight = some warr →
        treeIsEmpty acc = false → structOf acc = structOf v →
        addRun s v (Weight.scalar c)
          = (none, ⟨some (treeAdd2 acc (scaleQ c v)),
                    some ⟨warr.shape, warr.data.map (fun x => x + c)⟩,
                    s.multiDevice⟩)) := by
  constructor
  · intro v w
    cases hsc : scaleTree v w with
    | none => constructor <;> simp [addRun, hsc]
    | some sv =>
      constructor <;>
        (simp only [addRun, hsc, hacc, addStarted]
         repeat' split
         all_goals simp)
  · intro v warr c hw hne hstr
    exact addRun_started_scalar s acc warr v c hacc hw hne hstr

theorem claim_C9_witness :
    addRun ⟨some [Arr.mk [] [1]], some ⟨[], [1]⟩, false⟩ [Arr.mk [] [2]]
        (Weight.scalar 3)
      = (none, ⟨some (treeAdd2 [Arr.mk [] [1]] (scaleQ 3 [Arr.mk [] [2]])),
                some ⟨[], List.map (fun x => x + 3) [1]⟩, false⟩) :=
  (claim_C9_amended ⟨some [Arr.mk [] [1]], some ⟨[], [1]⟩, false⟩
      [Arr.mk [] [1]] rfl).2 [Arr.mk [] [2]] ⟨[], [1]⟩ 3 rfl rfl rfl

/-! ### Claim C3: add, value-and-clear, add again -/

/-- Claim C3 counterexample: on one instance, `add` then `value_and_clear`
then `add` again raises on the second `add` (the cleared weight slot is
`None`, and the first-add path evaluates `jnp.full_like(None, w)`), whereas
the same second `add` on a second freshly constructed accumulator succeeds —
the two command sequences do not produce the same observable results. -/
theorem claim_C3_counterexample :
    (addRun (valueAndClearRun (addRun (emptyAcc false) [Arr.mk [1] [1]]
        (Weight.scalar 1)).2).2 [Arr.mk [1] [2]] (Weight.scalar 1)).1
      = some Err.external ∧
    (addRun (emptyAcc false) [Arr.mk [1] [2]] (Weight.scalar 1)).1 = none := by
  constructor
  · rw [addRun_empty_scalar]
    have h2 := valueAndClearRun_single (scaleQ 1 [Arr.mk [1] [1]]) 1
    rw [h2, addRun]
    rw [scaleTree_scalar]
    rfl
  · rw [addRun_empty_scalar]

/-- Claim C3 (amended): `value_and_clear` leaves the accumulator at the
unstarted sentinel but the weight at `None` rather than at a constructor's
numeric zero; consequently the next `add` on the same instance always fails
with an external error (after having adopted the scaled value into the
accumulator), while the same `add` on a fresh `empty(False)` accumulator
succeeds — residual state from before the clear does affect the later
`add`. -/
theorem claim_C3_amended (v1 v2 : PyTree) (w1 w2 : ℚ) :
    (valueAndClearRun (addRun (emptyAcc false) v1 (Weight.scalar w1)).2).2
      = ⟨none, none, false⟩ ∧
    addRun (⟨none, none, false⟩ : MCA) v2 (Weight.scalar w2)
      = (some Err.external, ⟨some (scaleQ w2 v2), none, false⟩) ∧
    addRun (emptyAcc false) v2 (Weight.scalar w2)
      = (none, ⟨some (scaleQ w2 v2), some ⟨[], [w2]⟩, false⟩) := by
  refine ⟨?_, ?_, addRun_empty_scalar v2 w2⟩
  · rw [addRun_empty_scalar]
    exact valueAndClearRun_single (scaleQ w1 v1) w1
  · simp [addRun, scaleTree_scalar, addUnstarted]

/-! ### Claim C2: net effect of a sequence of scalar-weight `add` calls -/

lemma structOf_foldl (v₀ : PyTree) :
    ∀ (l : List (PyTree × ℚ)) (a : PyTree), structOf a = structOf v₀ →
      (∀ q ∈ l, structOf q.1 = structOf v₀) →
      structOf (l.foldl (fun a p => treeAdd2 a (scaleQ p.2 p.1)) a)
        = structOf v₀
  | [], _, ha, _ => ha
  | p :: rest, a, ha, hall => by
    have hp : structOf p.1 = structOf v₀ := hall p (List.mem_cons_self p rest)
    have hstep : structOf (treeAdd2 a (scaleQ p.2 p.1)) = structOf v₀ := by
      rw [structOf_treeAdd2 a (scaleQ p.2 p.1)
        (by rw [structOf_scaleQ]; exact ha.trans hp.symm)]
      exact ha
    exact structOf_foldl v₀ rest (treeAdd2 a (scaleQ p.2 p.1)) hstep
      (fun q hq => hall q (List.mem_cons_of_mem p hq))

lemma addList_started (v₀ : PyTree) :
    ∀ (l : List (PyTree × ℚ)) (acc : PyTree) (warr : Arr) (md : Bool),
      treeIsEmpty acc = false → structOf acc = structOf v₀ →
      (∀ p ∈ l, structOf p.1 = structOf v₀) →
      addList ⟨some acc, some warr, md⟩ l
        = (none,
           ⟨some (l.foldl (fun a p => treeAdd2 a (scaleQ p.2 p.1)) acc),
            some ⟨warr.shape,
                  warr.data.map (fun x => x + (l.map Prod.snd).sum)⟩,
            md⟩)
  | [], acc, warr, md, _, _, _ => by
    have hmap : warr.data.map
        (fun x => x + (([] : List (PyTree × ℚ)).map Prod.snd).sum)
        = warr.data := by simp
    simp only [addList, List.foldl, hmap]
  | p :: rest, acc, warr, md, hne, hstr, hall => by
    have hp : structOf p.1 = structOf v₀ := hall p (List.mem_cons_self p rest)
    have hstr2 : structOf acc = structOf p.1 := hstr.trans hp.symm
    have h1 := addRun_started_scalar ⟨some acc, some warr, md⟩ acc warr p.1 p.2
      rfl rfl hne hstr2
    have hsadd : structOf (treeAdd2 acc (scaleQ p.2 p.1)) = structOf acc :=
      structOf_treeAdd2 acc (scaleQ p.2 p.1)
        (by rw [structOf_scaleQ]; exact hstr2)
    have hne2 : treeIsEmpty (treeAdd2 acc (scaleQ p.2 p.1)) = false :=
      nonempty_of_structOf hsadd hne
    have hstr3 : structOf (treeAdd2 acc (scaleQ p.2 p.1)) = structOf v₀ := by
      rw [hsadd]; exact hstr
    have ih := addList_started v₀ rest (treeAdd2 acc (scaleQ p.2 p.1))
      ⟨warr.shape, warr.data.map (fun x => x + p.2)⟩ md hne2 hstr3
      (fun q hq => hall q (List.mem_cons_of_mem p hq))
    have hw : (warr.data.map (fun x => x + p.2)).map
        (fun x => x + (rest.map Prod.snd).sum)
        = warr.data.map (fun x => x + (p.2 + (rest.map Prod.snd).sum)) := by
      rw [List.map_map]
      congr 1
      funext x
      simp [Function.comp, add_assoc]
    simp only [addList, h1, ih, List.foldl, List.map_cons, List.sum_cons, hw]

/-- Claim C2 (confirmed): for any sequence of `n >= 1` scalar-weight `add`
calls on a freshly constructed single-stream accumulator (`empty(False)` or
`zeros_like(ref, False)` with a non-empty reference tree), all with trees of
the reference structure, afterwards the accumulator equals the elementwise
weighted sum `Σ v_i * w_i`, the weight equals `Σ w_i` plus the constructor's
zero seed, and `value` equals `(Σ v_i * w_i) / (Σ w_i)` elementwise. -/
theorem claim_C2_sum_and_value (v₀ : PyTree) (p : PyTree × ℚ)
    (rest : List (PyTree × ℚ)) (A : MCA)
    (hA : A = emptyAcc false ∨ A = zerosLikeAcc v₀ false)
    (hne : treeIsEmpty v₀ = false)
    (hp : structOf p.1 = structOf v₀)
    (hrest : ∀ q ∈ rest, structOf q.1 = structOf v₀) :
    addList A (p :: rest)
      = (none, ⟨some (weightedSum p rest),
                some ⟨[], [p.2 + (rest.map Prod.snd).sum]⟩, false⟩) ∧
    valueRun (addList A (p :: rest)).2
      = .ok (some (divQ (p.2 + (rest.map Prod.snd).sum)
          (weightedSum p rest))) := by
  have hSstr : structOf (weightedSum p rest) = structOf v₀ :=
    structOf_foldl v₀ rest (scaleQ p.2 p.1)
      (by rw [structOf_scaleQ]; exact hp) hrest
  have hSne : treeIsEmpty (weightedSum p rest) = false :=
    nonempty_of_structOf hSstr hne
  have key : addList A (p :: rest)
      = (none, ⟨some (weightedSum p rest),
                some ⟨[], [p.2 + (rest.map Prod.snd).sum]⟩, false⟩) := by
    rcases hA with rfl | rfl
    · have h1 := addRun_empty_scalar p.1 p.2
      have hpne : treeIsEmpty (scaleQ p.2 p.1) = false := by
        rw [treeIsEmpty_scaleQ]; exact nonempty_of_structOf hp hne
      have h2 := addList_started v₀ rest (scaleQ p.2 p.1) ⟨[], [p.2]⟩ false
        hpne (by rw [structOf_scaleQ]; exact hp) hrest
      simp only [addList, h1, h2]
      simp [weightedSum]
    · have hz : zerosLikeAcc v₀ false
          = ⟨some (jitZerosLike v₀), some ⟨[], [0]⟩, false⟩ := by
        simp [zerosLikeAcc, hne, intZeroScalar]
      have hzne : treeIsEmpty (jitZerosLike v₀) = false :=
        nonempty_of_structOf (structOf_jitZerosLike v₀) hne
      have h2 := addList_started v₀ (p :: rest) (jitZerosLike v₀) ⟨[], [0]⟩
        false hzne (structOf_jitZerosLike v₀)
        (by intro q hq
            rcases List.mem_cons.mp hq with h | h
            · rw [h]; exact hp
            · exact hrest q h)
      rw [hz, h2]
      have hzadd : treeAdd2 (jitZerosLike v₀) (scaleQ p.2 p.1)
          = scaleQ p.2 p.1 :=
        treeAdd2_jitZerosLike v₀ (scaleQ p.2 p.1)
          (by rw [structOf_scaleQ]; exact hp.symm)
      simp only [List.foldl, hzadd, List.map_cons, List.sum_cons]
      simp [weightedSum]
  refine ⟨key, ?_⟩
  rw [key]
  dsimp only
  rw [valueRun_single]
  simp [hSne]

theorem claim_C2_witness :
    addList (emptyAcc false) [([Arr.mk [1] [1]], 2), ([Arr.mk [1] [3]], 1)]
      = (none,
         ⟨some (weightedSum ([Arr.mk [1] [1]], 2) [([Arr.mk [1] [3]], 1)]),
          some ⟨[], [2 + ([([Arr.mk [1] [3]], 1)].map Prod.snd).sum]⟩,
          false⟩) ∧
    valueRun (addList (emptyAcc false)
        [([Arr.mk [1] [1]], 2), ([Arr.mk [1] [3]], 1)]).2
      = .ok (some (divQ (2 + ([([Arr.mk [1] [3]], 1)].map Prod.snd).sum)
          (weightedSum ([Arr.mk [1] [1]], 2) [([Arr.mk [1] [3]], 1)]))) :=
  claim_C2_sum_and_value [Arr.mk [1] [1]] ([Arr.mk [1] [1]], 2)
    [([Arr.mk [1] [3]], 1)] (emptyAcc false) (Or.inl rfl) rfl rfl
    (by intro q hq
        rw [List.mem_singleton] at hq
        rw [hq]
        rfl)

end KfacAccumulators
